import Mathlib

/-!
Verification development for the client-side streaming execution-event
processor of the sentientFlow repository.

The embedding covers:
* `parseSSEStream` — the SSE frame tokenizer (src/frontend/lib/utils/sse-parser.ts),
  modelled one `reader.read()` chunk at a time;
* `parseEventName` — the `eventName.split("::", 2)` step of the execution hook
  (src/frontend/hooks/useWorkflowExecution.ts, lines 96-103);
* `runLoop` / `processFrames` / `executeCancelled` — the `for await` event loop
  of `execute` in useWorkflowExecution.ts, with `JSON.parse` results embedded
  shallowly as the `FramePayload` sum (a payload that fails `JSON.parse` is the
  `malformed` constructor, carrying the exception message);
* `stepEvent` / `reduceEvents` / `nodeBlocks` — the `nodeBlocks` useMemo reducer
  of src/frontend/components/preview/PreviewPanel.tsx, lines 46-185.

JavaScript strings are modelled as Lean `String`; all string operations are
re-implemented by structural recursion on `String.data` so that every
definition evaluates inside the kernel.  JavaScript `Map` (insertion-ordered,
`set` on an existing key keeps its position) is modelled as an association
list with `mapGet` / `mapSet` / `mapDelete`.  `Array.prototype.sort` is a
stable sort (mandated by the ECMAScript specification), so the final snapshot
sort is modelled with the stable `List.insertionSort`.
-/

/-- JavaScript `String.prototype.startsWith`, on character lists. -/
def charsStartWith : List Char → List Char → Bool
  | _, [] => true
  | [], _ :: _ => false
  | c :: cs, p :: ps => c = p && charsStartWith cs ps

/-- JavaScript whitespace test for `trim` (the characters that occur in this
protocol; the wire format is ASCII). -/
def isJsSpace (c : Char) : Bool := c = ' ' || c = '\n' || c = '\t' || c = '\r'

/-- JavaScript `String.prototype.trim`, on character lists. -/
def trimChars (l : List Char) : List Char :=
  ((l.dropWhile isJsSpace).reverse.dropWhile isJsSpace).reverse

/-- JavaScript `str.split("\n")`: split at every newline, keeping empty pieces. -/
def splitNl : List Char → List (List Char)
  | [] => [[]]
  | '\n' :: rest => [] :: splitNl rest
  | c :: rest =>
    match splitNl rest with
    | l :: ls => (c :: l) :: ls
    | [] => [[c]]

/-- JavaScript `str.split("::")`: scan left to right, cutting at each
(non-overlapping) occurrence of the two-character separator. -/
def splitColons : List Char → List (List Char)
  | [] => [[]]
  | ':' :: ':' :: rest => [] :: splitColons rest
  | c :: rest =>
    match splitColons rest with
    | l :: ls => (c :: l) :: ls
    | [] => [[c]]

/-- One complete SSE frame as yielded by the parser: `{ type, data }`. -/
structure SSEEvent where
  type : String
  data : String
deriving DecidableEq, Repr

/-- One line of the SSE line loop (sse-parser.ts lines 37-46).  The state is
the partially assembled `event` object (`type?`, `data?`); a blank line with
both fields truthy (non-empty) yields the frame and resets the state. -/
def sseLine (st : Option String × Option String) (line : List Char) :
    (Option String × Option String) × Option SSEEvent :=
  if charsStartWith line "event:".data then
    ((some ⟨trimChars (line.drop 6)⟩, st.2), none)
  else if charsStartWith line "data:".data then
    ((st.1, some ⟨trimChars (line.drop 5)⟩), none)
  else if line.isEmpty then
    match st with
    | (some t, some d) =>
      if t = "" ∨ d = "" then (st, none) else ((none, none), some ⟨t, d⟩)
    | _ => (st, none)
  else (st, none)

/-- Run `sseLine` over a list of lines, collecting yielded frames. -/
def sseProcessLines (st : Option String × Option String) :
    List (List Char) → List SSEEvent
  | [] => []
  | l :: ls =>
    let r := sseLine st l
    match r.2 with
    | some e => e :: sseProcessLines r.1 ls
    | none => sseProcessLines r.1 ls

/-- One iteration of the `while (true)` read loop of `parseSSEStream`
(sse-parser.ts lines 17-47): append the chunk to the carry-over buffer, split
into lines, keep the last (possibly incomplete) line as the new buffer, and
run the line loop over the complete lines.  Note the partially assembled
`event` object is declared inside the loop body, so it starts fresh on every
chunk. -/
def ssePushChunk (buffer chunk : String) : String × List SSEEvent :=
  let s := buffer ++ chunk
  let lines := splitNl s.data
  let newBuf : List Char := (lines.getLast?).getD []
  (⟨newBuf⟩, sseProcessLines (none, none) lines.dropLast)

/-- The SSE tokenizer fed a list of network chunks (one list entry per
`reader.read()` result).  The trailing buffer is discarded when the stream
ends, exactly as in the source. -/
def parseSSEStream (chunks : List String) : List SSEEvent :=
  (chunks.foldl
    (fun acc c =>
      let r := ssePushChunk acc.1 c
      (r.1, acc.2 ++ r.2))
    ("", [])).2

/-- The `eventName.split("::", 2)` step of `execute`
(useWorkflowExecution.ts lines 96-103): if the name contains `"::"`, the
first piece becomes the base event name and the second piece (the text
between the first and second occurrence) becomes the node id; with a limit
of 2, JavaScript `split` discards everything from the second occurrence on. -/
def parseEventName (raw : String) : String × Option String :=
  match splitColons raw.data with
  | p0 :: p1 :: _ => (⟨p0⟩, some ⟨p1⟩)
  | _ => (raw, none)

/-- Block lifecycle status of `NodeExecutionBlock`. -/
inductive BlockStatus where
  | executing
  | completed
  | error
deriving DecidableEq, Repr

/-- The typed events appended to the hook's `events` array
(useWorkflowExecution.ts lines 117-195). -/
inductive WEvent where
  | textBlock (timestamp : Nat) (eventName : String) (content : String)
      (nodeId : Option String)
  | textChunk (timestamp : Nat) (streamId : String) (eventName : String)
      (content : String) (isComplete : Bool) (nodeId : Option String)
  | jsonEvent (timestamp : Nat) (eventName : String) (nodeId : Option String)
  | errorEvent (timestamp : Nat) (errorMessage : String) (errorCode : Nat)
      (nodeId : Option String)
  | doneEvent (timestamp : Nat)
deriving DecidableEq, Repr

/-- The part of a canvas workflow node that `nodeBlocks` reads:
its id, its type string, and the optional user-defined display name. -/
structure WorkflowNode where
  id : String
  type : String
  name : Option String
deriving DecidableEq, Repr

/-- The type-based default display names of `getNodeDisplayName`
(node-helpers.ts). -/
def nodeTypeDefaultName (t : String) : Option String :=
  match t with
  | "start" => some "Start"
  | "agent" => some "Agent"
  | "end" => some "End"
  | "fileSearch" => some "File Search"
  | "guardrails" => some "Guardrails"
  | "mcp" => some "MCP"
  | "ifElse" => some "If/Else"
  | "while" => some "While Loop"
  | "userApproval" => some "User Approval"
  | "transform" => some "Transform"
  | "setState" => some "Set State"
  | "note" => some "Note"
  | _ => none

/-- `getNodeDisplayName` (node-helpers.ts): user-defined name when truthy,
otherwise the type-based default, otherwise the raw type string. -/
def getNodeDisplayName : Option WorkflowNode → String
  | none => "Unknown Node"
  | some n =>
    match n.name with
    | some nm => if nm = "" then (nodeTypeDefaultName n.type).getD n.type else nm
    | none => (nodeTypeDefaultName n.type).getD n.type

/-- `new Map(nodes.map(n => [n.id, n])).get k` — later entries win. -/
def nodeMapGet (nodes : List WorkflowNode) (k : String) : Option WorkflowNode :=
  nodes.foldl (fun acc n => if n.id = k then some n else acc) none

/-- `node?.type || "agent"` (PreviewPanel.tsx lines 64, 118, 166). -/
def nodeTypeOrAgent : Option WorkflowNode → String
  | some n => if n.type = "" then "agent" else n.type
  | none => "agent"

/-- One step's accumulated execution block (types/preview, as populated by
`nodeBlocks` in PreviewPanel.tsx). -/
structure NodeExecutionBlock where
  id : String
  nodeId : String
  nodeName : String
  nodeType : String
  status : BlockStatus
  startedAt : Nat
  completedAt : Option Nat
  thinkingChunks : List String
  streamingThinking : String
  responseChunks : List String
  streamingResponse : String
  error : Option String
deriving DecidableEq, Repr

/-- `Map.get` on an insertion-ordered association list. -/
def mapGet {β : Type} : List (String × β) → String → Option β
  | [], _ => none
  | (k', v) :: rest, k => if k' = k then some v else mapGet rest k

/-- `Map.set` on an insertion-ordered association list: an existing key keeps
its position, a new key is appended at the end. -/
def mapSet {β : Type} : List (String × β) → String → β → List (String × β)
  | [], k, v => [(k, v)]
  | (k', v') :: rest, k, v =>
    if k' = k then (k', v) :: rest else (k', v') :: mapSet rest k v

/-- `Map.delete` on an insertion-ordered association list. -/
def mapDelete {β : Type} : List (String × β) → String → List (String × β)
  | [], _ => []
  | (k', v) :: rest, k => if k' = k then rest else (k', v) :: mapDelete rest k

/-- The freshly created block of PreviewPanel.tsx lines 71-82 / 114-125. -/
def freshBlock (bid nid : String) (node : Option WorkflowNode) (ts : Nat) :
    NodeExecutionBlock :=
  { id := "block-" ++ bid
    nodeId := nid
    nodeName := getNodeDisplayName node
    nodeType := nodeTypeOrAgent node
    status := .executing
    startedAt := ts
    completedAt := none
    thinkingChunks := []
    streamingThinking := ""
    responseChunks := []
    streamingResponse := ""
    error := none }

/-- The execution id a `TEXT_BLOCK` named `WORKFLOW_START` switches to
(PreviewPanel.tsx line 58: `currentExecId = exec-${event.timestamp}`). -/
def execIdOf (t : Nat) : String := "exec-" ++ Nat.repr t

/-- The execution id in effect while processing event `e` from state `st`
(PreviewPanel.tsx lines 56-59: the id is updated before the event's own
block handling). -/
def effExecId (st : List (String × NodeExecutionBlock) × String) (e : WEvent) :
    String :=
  match e with
  | .textBlock ts name _ _ => if name = "WORKFLOW_START" then execIdOf ts else st.2
  | _ => st.2

/-- One iteration of the `nodeBlocks` event loop (PreviewPanel.tsx lines
53-182), folding one `WEvent` into the block map.  The state carries the
block map and `currentExecId`. -/
def stepEvent (nodes : List WorkflowNode)
    (st : List (String × NodeExecutionBlock) × String) (e : WEvent) :
    List (String × NodeExecutionBlock) × String :=
  let execId := effExecId st e
  match e with
  | .textBlock ts name _content nid =>
    -- lines 61-91; `event.nodeId ? … : null` is JavaScript truthiness,
    -- so an absent or empty node id yields no block id
    let n := nid.getD ""
    if n = "" then (st.1, execId)
    else
      let bid := n ++ "-" ++ execId
      let blocks :=
        if (mapGet st.1 bid).isNone then
          mapSet st.1 bid (freshBlock bid n (nodeMapGet nodes n) ts)
        else st.1
      let blocks :=
        if name = "NODE_COMPLETE" then
          match mapGet blocks bid with
          | some b => mapSet blocks bid { b with status := .completed, completedAt := some ts }
          | none => blocks
        else blocks
      (blocks, execId)
  | .textChunk ts _sid name content isComplete nid =>
    -- lines 92-152; a chunk with a falsy node id is logged and skipped
    let n := nid.getD ""
    if n = "" then (st.1, execId)
    else
      let bid := n ++ "-" ++ execId
      let blocks :=
        if (mapGet st.1 bid).isNone then
          mapSet st.1 bid (freshBlock bid n (nodeMapGet nodes n) ts)
        else st.1
      match mapGet blocks bid with
      | some b =>
        let b' :=
          if name = "AGENT_THINKING" then
            if isComplete then
              if b.streamingThinking = "" then b
              else { b with thinkingChunks := b.thinkingChunks ++ [b.streamingThinking],
                            streamingThinking := "" }
            else { b with streamingThinking := b.streamingThinking ++ content }
          else if name = "AGENT_RESPONSE" then
            if isComplete then
              if b.streamingResponse = "" then b
              else { b with responseChunks := b.responseChunks ++ [b.streamingResponse],
                            streamingResponse := "" }
            else { b with streamingResponse := b.streamingResponse ++ content }
          else b
        (mapSet blocks bid b', execId)
      | none => (blocks, execId)
  | .errorEvent ts msg _code nid =>
    -- lines 153-181
    let n := nid.getD ""
    if n = "" then (st.1, execId)
    else
      let bid := n ++ "-" ++ execId
      match mapGet st.1 bid with
      | none =>
        (mapSet st.1 bid
          { freshBlock bid n (nodeMapGet nodes n) ts with status := .error, error := some msg },
         execId)
      | some b =>
        (mapSet st.1 bid { b with status := .error, error := some msg }, execId)
  | .jsonEvent _ _ _ => (st.1, execId)
  | .doneEvent _ => (st.1, execId)

/-- Fold a whole event list into the block map, starting from an empty map and
the hook-provided execution id (`currentExecutionId || exec-Date.now()`,
PreviewPanel.tsx line 51). -/
def reduceEvents (nodes : List WorkflowNode) (initExecId : String)
    (events : List WEvent) : List (String × NodeExecutionBlock) × String :=
  events.foldl (stepEvent nodes) ([], initExecId)

/-- The snapshot order relation: ascending `startedAt`. -/
def blockLe (a b : NodeExecutionBlock) : Prop := a.startedAt ≤ b.startedAt

instance : DecidableRel blockLe := fun a b => Nat.decLe a.startedAt b.startedAt

instance : IsTotal NodeExecutionBlock blockLe :=
  ⟨fun a b => Nat.le_total a.startedAt b.startedAt⟩

instance : IsTrans NodeExecutionBlock blockLe :=
  ⟨fun _ _ _ => Nat.le_trans⟩

/-- The consumer-facing snapshot (PreviewPanel.tsx line 184):
`Array.from(blocks.values()).sort((a, b) => a.startedAt - b.startedAt)`.
`Map.values()` is the insertion (creation) order; `Array.prototype.sort` is
stable, modelled by the stable `List.insertionSort`. -/
def nodeBlocks (nodes : List WorkflowNode) (initExecId : String)
    (events : List WEvent) : List NodeExecutionBlock :=
  List.insertionSort blockLe ((reduceEvents nodes initExecId events).1.map Prod.snd)

/-- Shallow embedding of `JSON.parse(event.data)` together with the
`content_type` dispatch of `execute` (useWorkflowExecution.ts lines 93,
106-198): a payload the parser cannot parse is `malformed` (the `JSON.parse`
exception, carrying its message); parseable JSON with an unrecognized
`content_type` is `unknownCategory`. -/
inductive FramePayload where
  | textblock (content : String)
  | chunkedText (streamId : String) (content : String) (isComplete : Bool)
  | atomicJson
  | atomicError (errorMessage : String) (errorCode : Nat)
  | atomicDone
  | unknownCategory
  | malformed (parseErrorMessage : String)
deriving DecidableEq, Repr

/-- One SSE frame as consumed by `execute`: the wire event name and the
payload. -/
structure SFrame where
  eventName : String
  payload : FramePayload
deriving DecidableEq, Repr

/-- The hook's `status` state. -/
inductive ExecStatus where
  | idle
  | running
  | completed
  | error
deriving DecidableEq, Repr

/-- The hook state mutated by the `execute` loop. -/
structure ExecState where
  events : List WEvent
  status : ExecStatus
  streamBuffers : List (String × String)
  executingNodeId : Option String
  completedNodes : List String
deriving DecidableEq, Repr

/-- The state right after `execute` has set `status = "running"`. -/
def initialExecState : ExecState :=
  { events := [], status := .running, streamBuffers := [],
    executingNodeId := none, completedNodes := [] }

/-- `new Set(prev).add(x)`. -/
def setAdd (l : List String) (x : String) : List String :=
  if x ∈ l then l else l ++ [x]

/-- The `for await (const event of parseSSEStream(response))` loop of
`execute` (useWorkflowExecution.ts lines 91-199), one frame per iteration;
each frame is paired with the `Date.now()` timestamp observed while
processing it.  The Bool is true when the loop terminated by itself
(`break` on `atomic.error` / `atomic.done`, or a `JSON.parse` throw landing
in the catch block), false when it ran out of input. -/
def runLoop : ExecState → List (Nat × SFrame) → ExecState × Bool
  | st, [] => (st, false)
  | st, (ts, f) :: rest =>
    match f.payload with
    | .malformed msg =>
      -- JSON.parse throws; the exception leaves the for-await loop and lands
      -- in the catch block (lines 200-217), which appends a synthetic ERROR
      -- event with code 500 and sets status = "error"; no later frame is read
      ({ st with events := st.events ++ [WEvent.errorEvent ts msg 500 none],
                 status := .error }, true)
    | .textblock content =>
      let r := parseEventName f.eventName
      let st :=
        if r.1 = "NODE_START" ∧ r.2.getD "" ≠ "" then
          { st with executingNodeId := r.2 }
        else if r.1 = "NODE_COMPLETE" ∧ r.2.getD "" ≠ "" then
          { st with completedNodes := setAdd st.completedNodes (r.2.getD ""),
                    executingNodeId := none }
        else if r.1 = "WORKFLOW_COMPLETE" then
          { st with executingNodeId := none }
        else st
      runLoop
        { st with events := st.events ++ [WEvent.textBlock ts r.1 content r.2] } rest
    | .chunkedText sid content isComplete =>
      let r := parseEventName f.eventName
      let st :=
        { st with events := st.events ++ [WEvent.textChunk ts sid r.1 content isComplete r.2] }
      let bufs :=
        if isComplete then mapDelete st.streamBuffers sid
        else mapSet st.streamBuffers sid ((mapGet st.streamBuffers sid).getD "" ++ content)
      runLoop { st with streamBuffers := bufs } rest
    | .atomicJson =>
      let r := parseEventName f.eventName
      runLoop { st with events := st.events ++ [WEvent.jsonEvent ts r.1 r.2] } rest
    | .atomicError msg code =>
      -- lines 173-186: append the ERROR event, set status, break
      let r := parseEventName f.eventName
      ({ st with events := st.events ++ [WEvent.errorEvent ts msg code r.2],
                 status := .error }, true)
    | .atomicDone =>
      -- lines 187-198: append the DONE event, set status, break
      ({ st with events := st.events ++ [WEvent.doneEvent ts], status := .completed }, true)
    | .unknownCategory => runLoop st rest

/-- Run the `execute` loop from the initial state. -/
def processFrames (frames : List (Nat × SFrame)) : ExecState × Bool :=
  runLoop initialExecState frames

/-- `cancel()` mid-stream (useWorkflowExecution.ts lines 38-44): the
transport is aborted, so only the frames read so far (`frames.take n`) are
ever processed; if the loop was still running, the AbortError lands in the
catch block (lines 201-204), which only sets `status = "idle"` and appends
nothing.  If the loop had already terminated by itself, `cancel` is a no-op
(the controller reference was cleared in `finally`). -/
def executeCancelled (frames : List (Nat × SFrame)) (n : Nat) : ExecState :=
  let r := runLoop initialExecState (frames.take n)
  if r.2 then r.1 else { r.1 with status := .idle }

/-- Right-fold concatenation of a list of strings (arrival-order
concatenation of chunk contents). -/
def concatAll : List String → String
  | [] => ""
  | c :: cs => c ++ concatAll cs

/-- Is this event the run-start marker of the reducer (a `TEXT_BLOCK` named
`WORKFLOW_START`, PreviewPanel.tsx line 57)? -/
def isRunStart : WEvent → Bool
  | .textBlock _ name _ _ => name = "WORKFLOW_START"
  | _ => false

/-- Decimal value of a digit-character list (used to invert `Nat.repr`). -/
def decVal (l : List Char) : Nat :=
  l.foldl (fun a c => 10 * a + (c.toNat - 48)) 0

/-- Every key of the block map is of the form `nodeId ++ "-" ++ execId` for
the given execution id. -/
def keyedBy (execId : String) (m : List (String × NodeExecutionBlock)) : Prop :=
  ∀ p ∈ m, ∃ n, p.1 = n ++ "-" ++ execId

/-! ### Association-list (JavaScript `Map`) lemmas -/

theorem mapGet_mapSet_self {β : Type} (m : List (String × β)) (k : String) (v : β) :
    mapGet (mapSet m k v) k = some v := by
  induction m with
  | nil => simp [mapGet, mapSet]
  | cons p rest ih =>
    obtain ⟨k', v'⟩ := p
    by_cases h : k' = k <;> simp [mapGet, mapSet, h, ih]

theorem mapGet_mapSet_ne {β : Type} (m : List (String × β)) (k k' : String) (v : β)
    (h : k' ≠ k) : mapGet (mapSet m k v) k' = mapGet m k' := by
  induction m with
  | nil => simp [mapGet, mapSet, Ne.symm h]
  | cons p rest ih =>
    obtain ⟨k'', v''⟩ := p
    by_cases h2 : k'' = k <;> by_cases h3 : k'' = k' <;>
      simp_all [mapGet, mapSet]

theorem mapSet_mapSet {β : Type} (m : List (String × β)) (k : String) (v w : β) :
    mapSet (mapSet m k v) k w = mapSet m k w := by
  induction m with
  | nil => simp [mapSet]
  | cons p rest ih =>
    obtain ⟨k', v'⟩ := p
    by_cases h : k' = k <;> simp [mapSet, h, ih]

theorem mapSet_self {β : Type} (m : List (String × β)) (k : String) (v : β)
    (h : mapGet m k = some v) : mapSet m k v = m := by
  induction m with
  | nil => simp [mapGet] at h
  | cons p rest ih =>
    obtain ⟨k', v'⟩ := p
    by_cases h2 : k' = k
    · simp [mapGet, h2] at h
      simp [mapSet, h2, h]
    · simp [mapGet, h2] at h
      simp [mapSet, h2, ih h]

theorem mem_mapSet {β : Type} (m : List (String × β)) (k : String) (v : β) :
    ∀ p ∈ mapSet m k v, p = (k, v) ∨ p ∈ m := by
  induction m with
  | nil => simp [mapSet]
  | cons q rest ih =>
    obtain ⟨k', v'⟩ := q
    intro p hp
    by_cases h : k' = k
    · simp [mapSet, h] at hp
      rcases hp with hp | hp
      · subst h; exact Or.inl (by simp [hp])
      · exact Or.inr (by simp [hp])
    · simp [mapSet, h] at hp
      rcases hp with hp | hp
      · exact Or.inr (by simp [hp])
      · rcases ih p hp with h1 | h1
        · exact Or.inl h1
        · exact Or.inr (by simp [h1])

theorem mapGet_some_mem {β : Type} (m : List (String × β)) (k : String) (v : β)
    (h : mapGet m k = some v) : (k, v) ∈ m := by
  induction m with
  | nil => simp [mapGet] at h
  | cons p rest ih =>
    obtain ⟨k', v'⟩ := p
    by_cases h2 : k' = k
    · simp [mapGet, h2] at h
      simp [h2, h]
    · simp [mapGet, h2] at h
      simp [ih h]

/-! ### C2 — SSE framing under chunk splits -/

/-- Claim C2 (code bug): the tokenizer is NOT split-invariant.  Fed in one
chunk, the well-formed two-frame stream yields both frames; split at byte 9
(right after the first `event:` line's newline), the first frame is lost,
because the partially assembled event object is discarded between `read()`
iterations.  An empty `data:` value also drops its frame (truthiness check),
contradicting the spec's explicit edge case. -/
theorem c2_split_framing_loses_frame :
    parseSSEStream ["event: A\ndata: B\n\nevent: C\ndata: D\n\n"]
      = [⟨"A", "B"⟩, ⟨"C", "D"⟩]
    ∧ parseSSEStream ["event: A\n", "data: B\n\nevent: C\ndata: D\n\n"]
      = [⟨"C", "D"⟩]
    ∧ parseSSEStream ["event: A\ndata:\n\n"] = [] :=
  ⟨by decide, by decide, by decide⟩

/-! ### C3 — decoding failures stop the pipeline -/

/-- Claim C3 (counterexample): a frame whose payload fails `JSON.parse`
terminates the loop — the following well-formed frame produces no event at
all, although alone it would (second conjunct), so the pipeline does not
remain operational for subsequent frames. -/
theorem c3_parse_failure_stops_pipeline :
    (processFrames [(1, ⟨"EV", .malformed "Unexpected token"⟩),
                    (2, ⟨"NODE_START::s2", .textblock "x"⟩)]).1.events
      = [.errorEvent 1 "Unexpected token" 500 none]
    ∧ (processFrames [(2, ⟨"NODE_START::s2", .textblock "x"⟩)]).1.events
      = [.textBlock 2 "NODE_START" "x" (some "s2")] :=
  ⟨by decide, by decide⟩

/-- Claim C3 (amended): a frame whose payload fails `JSON.parse` makes the
loop land in the catch block: a synthetic ERROR event carrying the parse
error's message and code 500 is appended, the run status becomes `error`,
and the loop terminates — all remaining frames are ignored. -/
theorem c3_decode_failure_amended (st : ExecState) (ts : Nat) (name msg : String)
    (rest : List (Nat × SFrame)) :
    runLoop st ((ts, ⟨name, .malformed msg⟩) :: rest)
      = ({ st with events := st.events ++ [WEvent.errorEvent ts msg 500 none],
                   status := .error }, true) := by
  simp [runLoop]

/-! ### C5 — step failure handling -/

/-- Claim C5 (counterexample): after an `atomic.error` frame carrying a step
id, the loop has terminated — a later frame for a different step produces no
event, so the run does not continue for other steps. -/
theorem c5_run_stops_after_step_error :
    (processFrames [(1, ⟨"NODE_ERROR::s1", .atomicError "boom" 500⟩),
                    (2, ⟨"NODE_START::s2", .textblock "x"⟩)]).1.events
      = [.errorEvent 1 "boom" 500 (some "s1")] := by
  decide

/-- Claim C5 (amended): in the block reducer, an ERROR event with a step id
sets exactly that step's block to `status=error` with the carried message and
leaves every other key of the block map untouched; but at the stream level,
the `execute` loop breaks on any `atomic.error`, so no event after the step
failure is processed. -/
theorem c5_step_error_amended (nodes : List WorkflowNode)
    (st : List (String × NodeExecutionBlock) × String) (ts : Nat) (msg : String)
    (code : Nat) (n : String) (hn : n ≠ "") :
    ((stepEvent nodes st (.errorEvent ts msg code (some n))).2 = st.2)
    ∧ (∃ b, mapGet (stepEvent nodes st (.errorEvent ts msg code (some n))).1
          (n ++ "-" ++ st.2) = some b ∧ b.status = .error ∧ b.error = some msg)
    ∧ (∀ k, k ≠ n ++ "-" ++ st.2 →
        mapGet (stepEvent nodes st (.errorEvent ts msg code (some n))).1 k
          = mapGet st.1 k)
    ∧ (∀ (hst : ExecState) (name : String) (rest : List (Nat × SFrame)),
        runLoop hst ((ts, ⟨name, .atomicError msg code⟩) :: rest)
          = runLoop hst [(ts, ⟨name, .atomicError msg code⟩)]) := by
  refine ⟨?_, ?_, ?_, ?_⟩
  · cases h : mapGet st.1 (n ++ "-" ++ st.2) <;>
      simp [stepEvent, effExecId, hn, h]
  · cases h : mapGet st.1 (n ++ "-" ++ st.2) <;>
      simp [stepEvent, effExecId, hn, h, mapGet_mapSet_self]
  · intro k hk
    cases h : mapGet st.1 (n ++ "-" ++ st.2) <;>
      simp [stepEvent, effExecId, hn, h, mapGet_mapSet_ne _ _ _ _ hk]
  · intro hst name rest
    simp [runLoop]

/-! ### C9 — chunks without a node id -/

/-- Claim C9 (counterexample): a `TEXT_CHUNK` without a node id is dropped by
the reducer — the snapshot stays empty; no synthetic run-level block is
created. -/
theorem c9_chunk_without_node_dropped :
    nodeBlocks [] "exec-0"
      [.textChunk 1 "stream-1" "AGENT_THINKING" "hello" false none] = [] := by
  decide

/-- Claim C9 (amended): a `TEXT_CHUNK` whose node id is absent (or empty,
which is falsy in JavaScript) leaves the reducer state completely
unchanged — it is logged and skipped, with no effect on the block mapping. -/
theorem c9_chunk_without_node_amended (nodes : List WorkflowNode)
    (st : List (String × NodeExecutionBlock) × String) (ts : Nat)
    (sid name cnt : String) (isC : Bool) (nid : Option String)
    (h : nid.getD "" = "") :
    stepEvent nodes st (.textChunk ts sid name cnt isC nid) = st := by
  simp [stepEvent, effExecId, h]

/-- Claim C9 amended, witness at a concrete input. -/
theorem c9_chunk_without_node_amended_witness :
    stepEvent [] ([], "exec-0") (.textChunk 1 "stream-1" "AGENT_THINKING" "hello" false none)
      = ([], "exec-0") :=
  c9_chunk_without_node_amended [] ([], "exec-0") 1 "stream-1" "AGENT_THINKING"
    "hello" false none (by decide)

/-! ### C4 — status monotonicity -/

/-- Claim C4 (counterexample): a block put into `status=error` by an ERROR
event is overwritten back to `status=completed` by a later `NODE_COMPLETE`
text block for the same step. -/
theorem c4_error_overwritten_by_complete :
    ((reduceEvents [] "exec-0" [.errorEvent 1 "boom" 500 (some "n")]).1.map
        (fun p => p.2.status) = [.error])
    ∧ ((reduceEvents [] "exec-0"
        [.errorEvent 1 "boom" 500 (some "n"),
         .textBlock 2 "NODE_COMPLETE" "done" (some "n")]).1.map
        (fun p => p.2.status) = [.completed]) :=
  ⟨by decide, by decide⟩

/-- Claim C4 (amended): block status is last-writer-wins, not monotonic: a
`NODE_COMPLETE` text block forces `status=completed` whatever the current
status (in particular over `error`), and a `TEXT_CHUNK` still mutates the
channels of a block whose status is already `completed` or `error` (the
status itself being preserved by the chunk). -/
theorem c4_status_last_writer_amended (nodes : List WorkflowNode)
    (st : List (String × NodeExecutionBlock) × String) (ts : Nat)
    (cnt sid n : String) (hn : n ≠ "") (b : NodeExecutionBlock)
    (hb : mapGet st.1 (n ++ "-" ++ st.2) = some b) :
    (∃ b1, mapGet (stepEvent nodes st (.textBlock ts "NODE_COMPLETE" cnt (some n))).1
        (n ++ "-" ++ st.2) = some b1
      ∧ b1.status = .completed ∧ b1.completedAt = some ts)
    ∧ (∃ b2, mapGet (stepEvent nodes st
          (.textChunk ts sid "AGENT_THINKING" cnt false (some n))).1
        (n ++ "-" ++ st.2) = some b2
      ∧ b2.streamingThinking = b.streamingThinking ++ cnt ∧ b2.status = b.status) := by
  constructor
  · refine ⟨{ b with status := .completed, completedAt := some ts }, ?_, rfl, rfl⟩
    simp [stepEvent, effExecId, hn, hb, mapGet_mapSet_self]
  · refine ⟨{ b with streamingThinking := b.streamingThinking ++ cnt }, ?_, rfl, rfl⟩
    simp [stepEvent, effExecId, hn, hb, mapGet_mapSet_self]

/-- Claim C4 amended, witness: a block already in `status=error` is completed
and its channel mutated by later events. -/
theorem c4_status_last_writer_amended_witness :
    (∃ b1, mapGet (stepEvent []
        ([("n-e", { freshBlock "n-e" "n" none 1 with status := .error, error := some "boom" })], "e")
        (.textBlock 7 "NODE_COMPLETE" "x" (some "n"))).1 ("n" ++ "-" ++ "e") = some b1
      ∧ b1.status = .completed ∧ b1.completedAt = some 7)
    ∧ (∃ b2, mapGet (stepEvent []
        ([("n-e", { freshBlock "n-e" "n" none 1 with status := .error, error := some "boom" })], "e")
        (.textChunk 7 "s" "AGENT_THINKING" "x" false (some "n"))).1 ("n" ++ "-" ++ "e") = some b2
      ∧ b2.streamingThinking = "" ++ "x" ∧ b2.status = .error) := by
  exact c4_status_last_writer_amended []
    ([("n-e", { freshBlock "n-e" "n" none 1 with status := .error, error := some "boom" })], "e")
    7 "x" "s" "n" (by decide)
    ({ freshBlock "n-e" "n" none 1 with status := .error, error := some "boom" }) (by decide)

/-! ### C5 witness -/

/-- Claim C5 amended, witness at a concrete input. -/
theorem c5_step_error_amended_witness :
    ((stepEvent [] ([], "exec-0") (.errorEvent 1 "boom" 500 (some "s1"))).2 = "exec-0")
    ∧ (∃ b, mapGet (stepEvent [] ([], "exec-0") (.errorEvent 1 "boom" 500 (some "s1"))).1
          ("s1" ++ "-" ++ "exec-0") = some b ∧ b.status = .error ∧ b.error = some "boom")
    ∧ (∀ k, k ≠ "s1" ++ "-" ++ "exec-0" →
        mapGet (stepEvent [] ([], "exec-0") (.errorEvent 1 "boom" 500 (some "s1"))).1 k
          = mapGet ([] : List (String × NodeExecutionBlock)) k)
    ∧ (∀ (hst : ExecState) (name : String) (rest : List (Nat × SFrame)),
        runLoop hst ((1, ⟨name, .atomicError "boom" 500⟩) :: rest)
          = runLoop hst [(1, ⟨name, .atomicError "boom" 500⟩)]) := by
  exact c5_step_error_amended [] ([], "exec-0") 1 "boom" 500 "s1" (by decide)

/-! ### C8 — cancellation -/

/-- Claim C8 (confirmed): cancelling after `n` frames have been read aborts
the transport (no later frame is processed — the state only depends on
`frames.take n`), appends no event, leaves the snapshot blocks — including
every live chunk and every `executing` status — exactly as they were, and
only flips the hook status to `idle` when the loop was still running; it
never forces `error` or `completed`. -/
theorem c8_cancellation_freezes (frames : List (Nat × SFrame)) (n : Nat)
    (nodes : List WorkflowNode) (initExecId : String) :
    (executeCancelled frames n).events
        = (runLoop initialExecState (frames.take n)).1.events
    ∧ nodeBlocks nodes initExecId (executeCancelled frames n).events
        = nodeBlocks nodes initExecId (runLoop initialExecState (frames.take n)).1.events
    ∧ (executeCancelled frames n).status
        = (if (runLoop initialExecState (frames.take n)).2
            then (runLoop initialExecState (frames.take n)).1.status
            else .idle) := by
  unfold executeCancelled
  cases h : (runLoop initialExecState (frames.take n)).2 <;> simp [h]

/-! ### C7 — event-name splitting -/

/-- Claim C7 (counterexample): on `"STEP::a::b"` the code produces step id
`"a"`, not the whole remainder `"a::b"` — `split("::", 2)` discards the text
from the second separator on. -/
theorem c7_second_separator_remainder_dropped :
    parseEventName "STEP::a::b" ≠ ("STEP", some "a::b")
    ∧ parseEventName "STEP::a::b" = ("STEP", some "a") :=
  ⟨by decide, by decide⟩

/-- Splitting on `"::"` after a separator-free piece cuts exactly there. -/
theorem splitColons_append (a : List Char) (ha : ':' ∉ a) (s : List Char) :
    splitColons (a ++ ':' :: ':' :: s) = a :: splitColons s := by
  induction a with
  | nil => simp [splitColons]
  | cons x a' ih =>
    have hx : x ≠ ':' := by intro h; exact ha (by simp [h])
    have ha' : ':' ∉ a' := fun h => ha (List.mem_cons_of_mem _ h)
    rw [List.cons_append, splitColons.eq_def]
    split
    · simp_all
    · rename_i rest heq
      injection heq with h1 _
      exact absurd h1 hx
    · rename_i c rest hne heq
      injection heq with hc hrest
      subst hc
      rw [← hrest, ih ha']

/-- Claim C7 (amended): splitting uses the first occurrence of `"::"` for the
base name, and the step id is only the text between the first and the second
occurrence — the remainder after a second `"::"` is discarded, not kept in
the step id. -/
theorem c7_split_amended (a b c : List Char) (ha : ':' ∉ a) (hb : ':' ∉ b) :
    parseEventName ⟨a ++ ':' :: ':' :: (b ++ ':' :: ':' :: c)⟩ = (⟨a⟩, some ⟨b⟩) := by
  unfold parseEventName
  have hdata : (String.mk (a ++ ':' :: ':' :: (b ++ ':' :: ':' :: c))).data
      = a ++ ':' :: ':' :: (b ++ ':' :: ':' :: c) := rfl
  rw [hdata, splitColons_append a ha, splitColons_append b hb]

/-- Claim C7 amended, witness at a concrete input. -/
theorem c7_split_amended_witness :
    parseEventName ⟨['E'] ++ ':' :: ':' :: (['s'] ++ ':' :: ':' :: ['t'])⟩
      = (⟨['E']⟩, some ⟨['s']⟩) :=
  c7_split_amended ['E'] ['s'] ['t'] (by decide) (by decide)

/-! ### C1 — chunk reconstruction -/

/-- Rewriting a record field to its own value is the identity. -/
theorem record_update_eta (b : NodeExecutionBlock) :
    { b with streamingThinking := b.streamingThinking } = b := rfl

/-- Folding a run of isFinal=false AGENT_THINKING fragments over an existing
block appends their concatenated contents to its live chunk and touches
nothing else. -/
theorem chunks_accumulate (nodes : List WorkflowNode) (n sid : String) (hn : n ≠ "")
    (cs : List (Nat × String)) :
    ∀ (m : List (String × NodeExecutionBlock)) (eid : String) (b : NodeExecutionBlock),
      mapGet m (n ++ "-" ++ eid) = some b →
      List.foldl (stepEvent nodes) (m, eid)
          (cs.map fun tc => WEvent.textChunk tc.1 sid "AGENT_THINKING" tc.2 false (some n))
        = (mapSet m (n ++ "-" ++ eid)
            { b with streamingThinking := b.streamingThinking ++ concatAll (cs.map Prod.snd) },
           eid) := by
  induction cs with
  | nil =>
    intro m eid b hb
    simp only [List.map_nil, List.foldl_nil, concatAll, String.append_empty]
    rw [record_update_eta, mapSet_self m _ b hb]
  | cons tc cs' ih =>
    intro m eid b hb
    simp only [List.map_cons, List.foldl_cons]
    have hstep : stepEvent nodes (m, eid)
        (WEvent.textChunk tc.1 sid "AGENT_THINKING" tc.2 false (some n))
        = (mapSet m (n ++ "-" ++ eid)
            { b with streamingThinking := b.streamingThinking ++ tc.2 }, eid) := by
      simp [stepEvent, effExecId, hn, hb]
    rw [hstep, ih _ _ _ (mapGet_mapSet_self ..), mapSet_mapSet]
    simp only [concatAll, String.append_assoc]

/-- An isFinal=true AGENT_THINKING fragment on an existing block moves the
non-empty live chunk into the committed list (dropping the fragment's own
content), or does nothing when the live chunk is empty. -/
theorem step_thinking_final (nodes : List WorkflowNode)
    (st : List (String × NodeExecutionBlock) × String) (ts : Nat) (sid c n : String)
    (hn : n ≠ "") (b : NodeExecutionBlock)
    (hb : mapGet st.1 (n ++ "-" ++ st.2) = some b) :
    stepEvent nodes st (.textChunk ts sid "AGENT_THINKING" c true (some n))
      = (mapSet st.1 (n ++ "-" ++ st.2)
          (if b.streamingThinking = "" then b
           else { b with thinkingChunks := b.thinkingChunks ++ [b.streamingThinking],
                         streamingThinking := "" }), st.2) := by
  by_cases hs : b.streamingThinking = "" <;>
    simp [stepEvent, effExecId, hn, hb, hs]

/-- An isFinal=false AGENT_THINKING fragment for an unknown block id creates
the block and seeds its live chunk with the fragment content. -/
theorem step_chunk_creates (nodes : List WorkflowNode)
    (st : List (String × NodeExecutionBlock) × String) (ts : Nat) (sid c n : String)
    (hn : n ≠ "") (hb : mapGet st.1 (n ++ "-" ++ st.2) = none) :
    stepEvent nodes st (.textChunk ts sid "AGENT_THINKING" c false (some n))
      = (mapSet st.1 (n ++ "-" ++ st.2)
          { freshBlock (n ++ "-" ++ st.2) n (nodeMapGet nodes n) ts with
              streamingThinking := c }, st.2) := by
  simp [stepEvent, effExecId, hn, hb, mapGet_mapSet_self, mapSet_mapSet, freshBlock]

/-- An isFinal=true AGENT_THINKING fragment for an unknown block id creates
the block; its own content is discarded entirely. -/
theorem step_final_creates (nodes : List WorkflowNode)
    (st : List (String × NodeExecutionBlock) × String) (ts : Nat) (sid c n : String)
    (hn : n ≠ "") (hb : mapGet st.1 (n ++ "-" ++ st.2) = none) :
    stepEvent nodes st (.textChunk ts sid "AGENT_THINKING" c true (some n))
      = (mapSet st.1 (n ++ "-" ++ st.2)
          (freshBlock (n ++ "-" ++ st.2) n (nodeMapGet nodes n) ts), st.2) := by
  simp [stepEvent, effExecId, hn, hb, mapGet_mapSet_self, mapSet_mapSet, freshBlock]

/-- Claim C1 (counterexample): with fragments "Thinking" (isFinal=false) and
"...done." (isFinal=true) on one channel, the committed text is only
"Thinking" — the content carried on the final fragment is discarded, not
appended. -/
theorem c1_final_chunk_content_dropped :
    (nodeBlocks [] "exec-0"
        [.textChunk 1 "s" "AGENT_THINKING" "Thinking" false (some "n"),
         .textChunk 2 "s" "AGENT_THINKING" "...done." true (some "n")]).map
      (fun b => b.thinkingChunks) = [["Thinking"]]
    ∧ (["Thinking"] : List String) ≠ ["Thinking...done."] :=
  ⟨by decide, by decide⟩

/-- Claim C1 (amended): for a fragment sequence on one channel ending in one
isFinal=true fragment, the committed text is the concatenation, in arrival
order, of the isFinal=false fragment contents only: the content carried on
the final fragment is discarded, and the accumulated live text is committed
only when non-empty; the live chunk ends empty. -/
theorem c1_chunk_commit_amended (nodes : List WorkflowNode) (initId n sid : String)
    (hn : n ≠ "") (cs : List (Nat × String)) (tf : Nat) (cf : String) :
    ∃ bl, mapGet (reduceEvents nodes initId
        ((cs.map fun tc => WEvent.textChunk tc.1 sid "AGENT_THINKING" tc.2 false (some n))
          ++ [WEvent.textChunk tf sid "AGENT_THINKING" cf true (some n)])).1
        (n ++ "-" ++ initId) = some bl
      ∧ bl.thinkingChunks
          = (if concatAll (cs.map Prod.snd) = "" then [] else [concatAll (cs.map Prod.snd)])
      ∧ bl.streamingThinking = "" := by
  unfold reduceEvents
  rw [List.foldl_append]
  cases cs with
  | nil =>
    simp only [List.map_nil, List.foldl_nil, List.foldl_cons, List.foldl_nil]
    rw [step_final_creates nodes ([], initId) tf sid cf n hn (by simp [mapGet])]
    refine ⟨freshBlock (n ++ "-" ++ initId) n (nodeMapGet nodes n) tf,
      mapGet_mapSet_self .., by simp [freshBlock, concatAll], by simp [freshBlock]⟩
  | cons tc cs' =>
    simp only [List.map_cons, List.foldl_cons]
    rw [show stepEvent nodes ([], initId)
        (WEvent.textChunk tc.1 sid "AGENT_THINKING" tc.2 false (some n))
        = (mapSet [] (n ++ "-" ++ initId)
            { freshBlock (n ++ "-" ++ initId) n (nodeMapGet nodes n) tc.1 with
                streamingThinking := tc.2 }, initId)
      from step_chunk_creates nodes ([], initId) tc.1 sid tc.2 n hn (by simp [mapGet])]
    have hfacts : ({ freshBlock (n ++ "-" ++ initId) n (nodeMapGet nodes n) tc.1 with
        streamingThinking := tc.2 } : NodeExecutionBlock).streamingThinking = tc.2
        ∧ ({ freshBlock (n ++ "-" ++ initId) n (nodeMapGet nodes n) tc.1 with
        streamingThinking := tc.2 } : NodeExecutionBlock).thinkingChunks = [] := ⟨rfl, rfl⟩
    generalize hb1 : ({ freshBlock (n ++ "-" ++ initId) n (nodeMapGet nodes n) tc.1 with
        streamingThinking := tc.2 } : NodeExecutionBlock) = b1 at hfacts ⊢
    obtain ⟨hs1, ht1⟩ := hfacts
    rw [chunks_accumulate nodes n sid hn cs' (mapSet [] (n ++ "-" ++ initId) b1) initId b1
      (mapGet_mapSet_self ..)]
    rw [mapSet_mapSet]
    rw [step_thinking_final nodes (mapSet [] (n ++ "-" ++ initId)
        { b1 with streamingThinking := b1.streamingThinking ++ concatAll (cs'.map Prod.snd) },
        initId) tf sid cf n hn _ (mapGet_mapSet_self ..)]
    rw [mapSet_mapSet]
    simp only [hs1, ht1]
    by_cases hc : tc.2 ++ concatAll (cs'.map Prod.snd) = ""
    · refine ⟨_, mapGet_mapSet_self .., ?_, ?_⟩
      · simp [concatAll, hc, ht1]
      · simp [hc, hs1]
    · refine ⟨_, mapGet_mapSet_self .., ?_, ?_⟩
      · simp [concatAll, hc, ht1]
      · simp [hc]

/-- Claim C1 amended, witness at a concrete input. -/
theorem c1_chunk_commit_amended_witness :
    ∃ bl, mapGet (reduceEvents [] "exec-0"
        (([(1, "Thinking")].map fun tc =>
            WEvent.textChunk tc.1 "s" "AGENT_THINKING" tc.2 false (some "n"))
          ++ [WEvent.textChunk 2 "s" "AGENT_THINKING" "...done." true (some "n")])).1
        ("n" ++ "-" ++ "exec-0") = some bl
      ∧ bl.thinkingChunks = (if concatAll ([(1, "Thinking")].map Prod.snd) = "" then []
          else [concatAll ([(1, "Thinking")].map Prod.snd)])
      ∧ bl.streamingThinking = "" :=
  c1_chunk_commit_amended [] "exec-0" "n" "s" (by decide) [(1, "Thinking")] 2 "...done."

/-- Inserting a block into a list keeps the relative order of blocks with any
fixed `startedAt` value: the insertion point is strictly after every block
with a smaller timestamp and before the first with an equal or larger one. -/
theorem orderedInsert_filter (t : Nat) (a : NodeExecutionBlock)
    (l : List NodeExecutionBlock) :
    (List.orderedInsert blockLe a l).filter (fun b => decide (b.startedAt = t))
      = (if a.startedAt = t
          then a :: l.filter (fun b => decide (b.startedAt = t))
          else l.filter (fun b => decide (b.startedAt = t))) := by
  induction l with
  | nil => by_cases h : a.startedAt = t <;> simp [List.orderedInsert, h]
  | cons b l ih =>
    by_cases hr : blockLe a b
    · by_cases h : a.startedAt = t <;> simp [List.orderedInsert, hr, h]
    · have hba : b.startedAt < a.startedAt := Nat.lt_of_not_le hr
      by_cases h : a.startedAt = t
      · have hbf : ¬(b.startedAt = t) := by omega
        simp [List.orderedInsert, hr, h, hbf, ih]
      · by_cases hb2 : b.startedAt = t <;>
          simp [List.orderedInsert, hr, h, hb2, ih]

/-- The stable insertion sort keeps the relative order of equal-timestamp
blocks: filtering any fixed timestamp out of the sorted list gives exactly
the filtered input, in input order. -/
theorem insertionSort_startedAt_filter (t : Nat) (l : List NodeExecutionBlock) :
    (List.insertionSort blockLe l).filter (fun b => decide (b.startedAt = t))
      = l.filter (fun b => decide (b.startedAt = t)) := by
  induction l with
  | nil => rfl
  | cons a l ih =>
    by_cases h : a.startedAt = t <;>
      simp [List.insertionSort, orderedInsert_filter, h, ih]

/-- Claim C10 (confirmed): the snapshot returned to the consumer is the block
map's values (creation order) sorted by `startedAt` ascending with a stable
sort: it is pairwise ordered by `startedAt`, it is a permutation of the
creation-order values, and for every timestamp the blocks carrying it appear
in exactly their creation order. -/
theorem c10_snapshot_sorted_stable (nodes : List WorkflowNode)
    (initExecId : String) (events : List WEvent) :
    (nodeBlocks nodes initExecId events).Pairwise
        (fun a b => a.startedAt ≤ b.startedAt)
    ∧ (nodeBlocks nodes initExecId events).Perm
        ((reduceEvents nodes initExecId events).1.map Prod.snd)
    ∧ ∀ t, (nodeBlocks nodes initExecId events).filter
          (fun b => decide (b.startedAt = t))
        = ((reduceEvents nodes initExecId events).1.map Prod.snd).filter
          (fun b => decide (b.startedAt = t)) := by
  refine ⟨?_, ?_, ?_⟩
  · exact List.sorted_insertionSort blockLe _
  · exact List.perm_insertionSort blockLe _
  · intro t
    exact insertionSort_startedAt_filter t _

/-- `Nat.digitChar` never yields a dash. -/
theorem digitChar_ne_dash (m : Nat) : Nat.digitChar m ≠ '-' := by
  intro h
  rcases m with _|_|_|_|_|_|_|_|_|_|_|_|_|_|_|_|k
  case succ =>
    unfold Nat.digitChar at h
    iterate 16 rw [if_neg (by omega)] at h
    exact absurd h (by decide)
  all_goals exact absurd h (by decide)

/-- No dash occurs in the output of `Nat.toDigitsCore` over a dash-free
accumulator. -/
theorem toDigitsCore_no_dash (f : Nat) :
    ∀ (n : Nat) (acc : List Char), ('-' ∉ acc) →
      '-' ∉ Nat.toDigitsCore 10 f n acc := by
  induction f with
  | zero => intro n acc ha; simpa [Nat.toDigitsCore] using ha
  | succ f ih =>
    intro n acc ha
    rw [Nat.toDigitsCore]
    split
    · intro hmem
      rcases List.mem_cons.mp hmem with h | h
      · exact digitChar_ne_dash _ h.symm
      · exact ha h
    · apply ih
      intro hmem
      rcases List.mem_cons.mp hmem with h | h
      · exact digitChar_ne_dash _ h.symm
      · exact ha h

/-- `Nat.toDigitsCore` emits its digits in front of the accumulator. -/
theorem toDigitsCore_append (f : Nat) :
    ∀ (n : Nat) (acc : List Char),
      Nat.toDigitsCore 10 f n acc = Nat.toDigitsCore 10 f n [] ++ acc := by
  induction f with
  | zero => intro n acc; simp [Nat.toDigitsCore]
  | succ f ih =>
    intro n acc
    rw [Nat.toDigitsCore, Nat.toDigitsCore]
    by_cases h : n / 10 = 0
    · simp [h]
    · rw [if_neg h, if_neg h, ih (n / 10) (Nat.digitChar (n % 10) :: acc),
        ih (n / 10) [Nat.digitChar (n % 10)], List.append_assoc]
      rfl

/-- Digit characters decode back to their value. -/
theorem digitChar_toNat (m : Nat) (h : m < 10) :
    (Nat.digitChar m).toNat - 48 = m := by
  interval_cases m <;> decide

/-- `decVal` inverts `Nat.toDigitsCore` (with enough fuel and an empty
accumulator). -/
theorem decVal_toDigitsCore (f : Nat) :
    ∀ (n : Nat), n < f → decVal (Nat.toDigitsCore 10 f n []) = n := by
  induction f with
  | zero => intro n h; omega
  | succ f ih =>
    intro n h
    rw [Nat.toDigitsCore]
    by_cases h0 : n / 10 = 0
    · have hn : n < 10 := by omega
      have hmod : n % 10 = n := Nat.mod_eq_of_lt hn
      simp [decVal, h0, hmod, digitChar_toNat n hn]
    · rw [if_neg h0, toDigitsCore_append]
      have hdiv : n / 10 < f := by
        have h1 : n / 10 < n := Nat.div_lt_self (by omega) (by omega)
        omega
      have hrec := ih (n / 10) hdiv
      unfold decVal at hrec ⊢
      rw [List.foldl_append, hrec]
      simp [digitChar_toNat (n % 10) (Nat.mod_lt n (by omega))]
      omega

/-- `Nat.repr` unfolds to `toDigitsCore` with fuel `n + 1`. -/
theorem repr_data (n : Nat) : (Nat.repr n).data = Nat.toDigitsCore 10 (n + 1) n [] := rfl

/-- The decimal representation of a natural number contains no dash. -/
theorem repr_no_dash (n : Nat) : '-' ∉ (Nat.repr n).data := by
  rw [repr_data]; exact toDigitsCore_no_dash _ _ _ (by simp)

/-- Decimal representations are injective. -/
theorem repr_inj (t1 t2 : Nat) (h : (Nat.repr t1).data = (Nat.repr t2).data) :
    t1 = t2 := by
  have h1 := decVal_toDigitsCore (t1 + 1) t1 (by omega)
  have h2 := decVal_toDigitsCore (t2 + 1) t2 (by omega)
  rw [← repr_data] at h1 h2
  rw [h] at h1
  exact h1.symm.trans h2

/-- Two lists each consisting of a dash-free part, a dash, and a tail are
equal only when the parts agree. -/
theorem dash_split (xs : List Char) :
    ∀ (ys u v : List Char), '-' ∉ xs → '-' ∉ ys →
      xs ++ '-' :: u = ys ++ '-' :: v → xs = ys ∧ u = v := by
  induction xs with
  | nil =>
    intro ys u v _ hy heq
    cases ys with
    | nil => simp_all
    | cons y ys' =>
      rw [List.nil_append, List.cons_append] at heq
      injection heq with h1 _
      subst h1
      simp at hy
  | cons x xs' ih =>
    intro ys u v hx hy heq
    cases ys with
    | nil =>
      rw [List.cons_append, List.nil_append] at heq
      injection heq with h1 _
      subst h1
      simp at hx
    | cons y ys' =>
      rw [List.cons_append, List.cons_append] at heq
      injection heq with h1 h2
      subst h1
      obtain ⟨ha, hb⟩ := ih ys' u v
        (fun hh => hx (List.mem_cons_of_mem _ hh))
        (fun hh => hy (List.mem_cons_of_mem _ hh)) h2
      exact ⟨by rw [ha], hb⟩

/-- Block keys built from different run timestamps never collide, whatever
the node ids are: the execution-id suffix after the last dash is the
timestamp's dash-free decimal representation. -/
theorem execId_key_ne (n1 n2 : String) (t1 t2 : Nat) (h : t1 ≠ t2) :
    n1 ++ "-" ++ execIdOf t1 ≠ n2 ++ "-" ++ execIdOf t2 := by
  intro heq
  apply h
  apply repr_inj
  have hd1 : ("-" : String).data = ['-'] := rfl
  have hd2 : ("exec-" : String).data = ['e', 'x', 'e', 'c', '-'] := rfl
  have hdata := congrArg String.data heq
  simp only [String.data_append, execIdOf, hd1, hd2, List.append_assoc,
    List.cons_append, List.nil_append] at hdata
  have hrev := congrArg List.reverse hdata
  simp only [List.reverse_append, List.reverse_cons, List.append_assoc,
    List.nil_append, List.cons_append] at hrev
  have hnd1 : '-' ∉ (Nat.repr t1).data.reverse :=
    fun hh => repr_no_dash t1 (List.mem_reverse.mp hh)
  have hnd2 : '-' ∉ (Nat.repr t2).data.reverse :=
    fun hh => repr_no_dash t2 (List.mem_reverse.mp hh)
  exact List.reverse_injective (dash_split _ _ _ _ hnd1 hnd2 hrev).1

/-- `stepEvent` always returns the execution id in effect for its event. -/
theorem stepEvent_execId (nodes : List WorkflowNode)
    (st : List (String × NodeExecutionBlock) × String) (e : WEvent) :
    (stepEvent nodes st e).2 = effExecId st e := by
  cases e <;> simp only [stepEvent] <;> (repeat' split) <;> rfl

/-- An event that is not a run-start marker leaves the execution id alone. -/
theorem effExecId_no_start (st : List (String × NodeExecutionBlock) × String)
    (e : WEvent) (h : isRunStart e = false) : effExecId st e = st.2 := by
  cases e with
  | textBlock ts name cnt nid =>
    simp only [isRunStart, decide_eq_false_iff_not] at h
    simp [effExecId, h]
  | textChunk ts sid name cnt isC nid => rfl
  | jsonEvent ts name nid => rfl
  | errorEvent ts msg code nid => rfl
  | doneEvent ts => rfl

/-- One reducer step only reads and writes keys carrying the execution id in
effect for its event; every other key keeps its binding. -/
theorem stepEvent_untouched (nodes : List WorkflowNode)
    (st : List (String × NodeExecutionBlock) × String) (e : WEvent) (k : String)
    (hk : ∀ n, k ≠ n ++ "-" ++ effExecId st e) :
    mapGet (stepEvent nodes st e).1 k = mapGet st.1 k := by
  have hset : ∀ (m : List (String × NodeExecutionBlock)) (n : String) v,
      mapGet (mapSet m (n ++ "-" ++ effExecId st e) v) k = mapGet m k :=
    fun m n v => mapGet_mapSet_ne _ _ _ _ (hk n)
  cases e <;> simp only [stepEvent] <;> (repeat' split) <;>
    simp only [hset]

/-- One reducer step keeps the block map keyed by the execution id in effect
for its event. -/
theorem stepEvent_keyedBy (nodes : List WorkflowNode)
    (st : List (String × NodeExecutionBlock) × String) (e : WEvent)
    (hm : keyedBy (effExecId st e) st.1) :
    keyedBy (effExecId st e) (stepEvent nodes st e).1 := by
  have hset : ∀ (m : List (String × NodeExecutionBlock)) (n : String) v,
      keyedBy (effExecId st e) m →
      keyedBy (effExecId st e) (mapSet m (n ++ "-" ++ effExecId st e) v) := by
    intro m n v hmm p hp
    rcases mem_mapSet _ _ _ p hp with h | h
    · exact ⟨n, by rw [h]⟩
    · exact hmm p h
  cases e <;> simp only [stepEvent] <;> (repeat' split) <;>
    first
      | exact hm
      | exact hset _ _ _ hm
      | exact hset _ _ _ (hset _ _ _ hm)

/-- Folding a run of non-start events keeps the execution id, keeps the map
keyed by it, and never changes the binding of a key carrying a different
execution id. -/
theorem foldl_no_start (nodes : List WorkflowNode) (evs : List WEvent) :
    ∀ (st : List (String × NodeExecutionBlock) × String),
      (∀ e ∈ evs, isRunStart e = false) →
      ((List.foldl (stepEvent nodes) st evs).2 = st.2
       ∧ (keyedBy st.2 st.1 → keyedBy st.2 (List.foldl (stepEvent nodes) st evs).1)
       ∧ (∀ k, (∀ n, k ≠ n ++ "-" ++ st.2) →
           mapGet (List.foldl (stepEvent nodes) st evs).1 k = mapGet st.1 k)) := by
  induction evs with
  | nil => exact fun st _ => ⟨rfl, fun hk => hk, fun k _ => rfl⟩
  | cons e evs ih =>
    intro st h
    have he : isRunStart e = false := h e (by simp)
    have hrest : ∀ e' ∈ evs, isRunStart e' = false :=
      fun e' h' => h e' (by simp [h'])
    have heff : effExecId st e = st.2 := effExecId_no_start st e he
    have hexec : (stepEvent nodes st e).2 = st.2 := by
      rw [stepEvent_execId, heff]
    obtain ⟨ih1, ih2, ih3⟩ := ih (stepEvent nodes st e) hrest
    simp only [List.foldl_cons]
    refine ⟨by rw [ih1, hexec], ?_, ?_⟩
    · intro hm
      have h1 : keyedBy st.2 (stepEvent nodes st e).1 := by
        have := stepEvent_keyedBy nodes st e (by rw [heff]; exact hm)
        rwa [heff] at this
      have := ih2 (by rw [hexec]; exact h1)
      rwa [hexec] at this
    · intro k hkk
      have h2 : mapGet (stepEvent nodes st e).1 k = mapGet st.1 k :=
        stepEvent_untouched nodes st e k (by rw [heff]; exact hkk)
      have h3 := ih3 k (by rw [hexec]; exact hkk)
      rw [h3, h2]

/-- Claim C6 (amended): run isolation holds provided the two run-start
markers carry distinct timestamps: after run A's start marker and its
events, every block binding survives run B's start marker and events
unchanged, because every mutation of phase B targets keys suffixed with run
B's execution id `exec-<t2>`, which can never equal a phase-A key suffixed
with `exec-<t1>` when `t1 ≠ t2`.  (Run B's blocks cannot be touched by run
A's events for the simpler reason that those were processed earlier.) -/
theorem c6_run_isolation_amended (nodes : List WorkflowNode) (initId : String)
    (t1 t2 : Nat) (cA cB : String) (nA nB : Option String) (as bs : List WEvent)
    (hA : ∀ e ∈ as, isRunStart e = false)
    (hB : ∀ e ∈ bs, isRunStart e = false)
    (h12 : t1 ≠ t2) (k : String) (b : NodeExecutionBlock)
    (hk : mapGet (reduceEvents nodes initId
        (WEvent.textBlock t1 "WORKFLOW_START" cA nA :: as)).1 k = some b) :
    mapGet (reduceEvents nodes initId
      ((WEvent.textBlock t1 "WORKFLOW_START" cA nA :: as)
        ++ (WEvent.textBlock t2 "WORKFLOW_START" cB nB :: bs))).1 k = some b := by
  unfold reduceEvents at hk ⊢
  rw [List.foldl_append]
  -- phase A
  have heffA : effExecId ([], initId) (WEvent.textBlock t1 "WORKFLOW_START" cA nA)
      = execIdOf t1 := by simp [effExecId]
  have hstartA2 : (stepEvent nodes ([], initId)
      (WEvent.textBlock t1 "WORKFLOW_START" cA nA)).2 = execIdOf t1 := by
    rw [stepEvent_execId, heffA]
  have hstartAkeys : keyedBy (execIdOf t1)
      (stepEvent nodes ([], initId) (WEvent.textBlock t1 "WORKFLOW_START" cA nA)).1 := by
    have := stepEvent_keyedBy nodes ([], initId)
      (WEvent.textBlock t1 "WORKFLOW_START" cA nA)
      (by rw [heffA]; intro p hp; simp at hp)
    rwa [heffA] at this
  simp only [List.foldl_cons] at hk ⊢
  obtain ⟨hA1, hA2, hA3⟩ := foldl_no_start nodes as
    (stepEvent nodes ([], initId) (WEvent.textBlock t1 "WORKFLOW_START" cA nA)) hA
  have hAkeys : keyedBy (execIdOf t1)
      (List.foldl (stepEvent nodes)
        (stepEvent nodes ([], initId) (WEvent.textBlock t1 "WORKFLOW_START" cA nA)) as).1 := by
    have := hA2 (by rw [hstartA2]; exact hstartAkeys)
    rwa [hstartA2] at this
  -- the looked-up key is a phase-A key
  obtain ⟨n0, hn0⟩ := hAkeys (k, b) (mapGet_some_mem _ _ _ hk)
  have hn0k : k = n0 ++ "-" ++ execIdOf t1 := hn0
  have hkneB : ∀ n, k ≠ n ++ "-" ++ execIdOf t2 := by
    intro n
    rw [hn0k]
    exact execId_key_ne n0 n t1 t2 h12
  -- phase B start marker
  set stA := List.foldl (stepEvent nodes)
    (stepEvent nodes ([], initId) (WEvent.textBlock t1 "WORKFLOW_START" cA nA)) as with hstA
  have heffB : effExecId stA (WEvent.textBlock t2 "WORKFLOW_START" cB nB)
      = execIdOf t2 := by simp [effExecId]
  have hstartB2 : (stepEvent nodes stA (WEvent.textBlock t2 "WORKFLOW_START" cB nB)).2
      = execIdOf t2 := by rw [stepEvent_execId, heffB]
  have hBstart : mapGet (stepEvent nodes stA
      (WEvent.textBlock t2 "WORKFLOW_START" cB nB)).1 k = mapGet stA.1 k :=
    stepEvent_untouched nodes stA _ k (by rw [heffB]; exact hkneB)
  -- phase B events
  obtain ⟨hB1, hB2, hB3⟩ := foldl_no_start nodes bs
    (stepEvent nodes stA (WEvent.textBlock t2 "WORKFLOW_START" cB nB)) hB
  have hBkeep := hB3 k (by rw [hstartB2]; exact hkneB)
  rw [hBkeep, hBstart, hk]

/-- Claim C6 (counterexample): when the two run-start markers carry the SAME
timestamp (possible, since timestamps are `Date.now()` with millisecond
granularity), both runs resolve to the execution id `exec-5`, so run B's
chunk event mutates the block created under run A. -/
theorem c6_equal_timestamp_runs_collide :
    (mapGet (reduceEvents [] "exec-0"
        [.textBlock 5 "WORKFLOW_START" "go" none,
         .textChunk 6 "s" "AGENT_THINKING" "A" false (some "n")]).1 "n-exec-5").isSome = true
    ∧ mapGet (reduceEvents [] "exec-0"
        [.textBlock 5 "WORKFLOW_START" "go" none,
         .textChunk 6 "s" "AGENT_THINKING" "A" false (some "n"),
         .textBlock 5 "WORKFLOW_START" "go" none,
         .textChunk 7 "s" "AGENT_THINKING" "B" false (some "n")]).1 "n-exec-5"
      ≠ mapGet (reduceEvents [] "exec-0"
        [.textBlock 5 "WORKFLOW_START" "go" none,
         .textChunk 6 "s" "AGENT_THINKING" "A" false (some "n")]).1 "n-exec-5" :=
  ⟨by decide, by decide⟩

/-- Claim C6 amended, witness at concrete inputs with distinct run
timestamps. -/
theorem c6_run_isolation_amended_witness :
    mapGet (reduceEvents [] "exec-0"
      ((WEvent.textBlock 5 "WORKFLOW_START" "go" none
          :: [WEvent.textChunk 6 "s" "AGENT_THINKING" "A" false (some "n")])
        ++ (WEvent.textBlock 8 "WORKFLOW_START" "go" none
          :: [WEvent.textChunk 9 "s" "AGENT_THINKING" "B" false (some "n")]))).1
      "n-exec-5"
      = some { freshBlock "n-exec-5" "n" none 6 with streamingThinking := "A" } :=
  c6_run_isolation_amended [] "exec-0" 5 8 "go" "go" none none
    [WEvent.textChunk 6 "s" "AGENT_THINKING" "A" false (some "n")]
    [WEvent.textChunk 9 "s" "AGENT_THINKING" "B" false (some "n")]
    (by intro e he; rw [List.mem_singleton] at he; subst he; rfl)
    (by intro e he; rw [List.mem_singleton] at he; subst he; rfl)
    (by decide) "n-exec-5"
    ({ freshBlock "n-exec-5" "n" none 6 with streamingThinking := "A" })
    (by decide)

